import Mathlib

set_option autoImplicit false

/-
Verification of the Sentra LPR Parking System against its specification.

The repository ships the database schema (supabase_schema.sql), the REST API
reference, the setup guide and the React admin frontend.  The Flask backend
modules (routes_sessions.py and friends) are not part of the source tree, so
the Parking Session & Spot Allocation Engine is modelled here from the
specification text; the frontend components (Dashboard.jsx, Reservations.jsx)
are embedded directly from their JavaScript source.
-/

namespace Sentra

/-- Session type, from the parking_sessions CHECK constraint in
supabase_schema.sql: walk_in | reserved | subscription. -/
inductive SessionType where
  | walk_in
  | reserved
  | subscription
deriving DecidableEq

/-- Payment status, from the parking_sessions CHECK constraint:
pending | paid | waived. -/
inductive PayStatus where
  | pending
  | paid
  | waived
deriving DecidableEq

/-- Reservation status, from the reservations CHECK constraint:
pending | confirmed | checked_in | completed | cancelled | no_show. -/
inductive ResStatus where
  | pending
  | confirmed
  | checked_in
  | completed
  | cancelled
  | no_show
deriving DecidableEq

/-- Subscription status: active | expired | cancelled. -/
inductive SubStatus where
  | active
  | expired
  | cancelled
deriving DecidableEq

/-- Typed errors of the engine, from the spec error taxonomy. -/
inductive EngineError where
  | alreadyParked
  | noActiveSession
  | noSpotAvailable
  | invalidTransition
  | insufficientFunds
  | notFound
deriving DecidableEq

/-- A parking spot, after the parking_spots table: name unique within the
facility, a type, occupancy and reservation flags, and an active flag. -/
structure Spot where
  name : String
  spotType : String
  occupied : Bool
  reserved : Bool
  active : Bool
deriving DecidableEq

/-- A facility with its hourly rate (integer LKR) and its spots. -/
structure Facility where
  fid : Nat
  hourlyRate : Nat
  spots : List Spot
deriving DecidableEq

/-- A parking session, after the parking_sessions table.  Time is modelled in
whole minutes. -/
structure Session where
  plate : String
  fid : Nat
  spotName : String
  entryTime : Nat
  exitTime : Option Nat
  durationMinutes : Option Nat
  fee : Option Nat
  payStatus : Option PayStatus
  sType : SessionType
deriving DecidableEq

/-- A reservation, after the reservations table. -/
structure Reservation where
  rid : Nat
  plate : String
  fid : Nat
  spotName : String
  windowStart : Nat
  windowEnd : Nat
  status : ResStatus
deriving DecidableEq

/-- A subscription (monthly pass), after the subscriptions table. -/
structure Subscription where
  plate : String
  fid : Nat
  startDate : Nat
  endDate : Nat
  status : SubStatus
deriving DecidableEq

/-- The full engine state: facilities with their spots, the session history,
reservations, subscriptions, wallets (accountId to balance) and the vehicle
directory (plate to owning account), plus the current time in minutes. -/
structure EngineState where
  facilities : List Facility
  sessions : List Session
  reservations : List Reservation
  subs : List Subscription
  wallets : List (Nat × Int)
  vehicles : List (String × Nat)
  now : Nat
deriving DecidableEq

/-- Result of openSession, after the POST /api/sessions/entry response. -/
structure EntryResult where
  spotName : String
  sType : SessionType
  isRegistered : Bool
  gateAction : String
deriving DecidableEq

/-- Result of closeSession, after the POST /api/sessions/exit response. -/
structure ExitResult where
  durationMinutes : Nat
  fee : Nat
  payStatus : PayStatus
  gateAction : String
deriving DecidableEq

/-- Modelled from the spec: SpotRegistry eligibility criteria for tryClaim
(backend routes_sessions.py is not in the source tree): correct type, active,
not occupied, not reserved. -/
def eligSpot (ty : String) (sp : Spot) : Bool :=
  sp.spotType == ty && sp.active && !sp.occupied && !sp.reserved

/-- The eligible spots of a spot list for a requested type. -/
def eligList (sps : List Spot) (ty : String) : List Spot :=
  sps.filter (eligSpot ty)

/-- Lexicographic comparison of character lists, by code point. -/
def charsLE : List Char → List Char → Bool
  | [], _ => true
  | _ :: _, [] => false
  | c :: cs, d :: ds =>
    if c < d then true
    else if d < c then false
    else charsLE cs ds

/-- The spot with the lexicographically lowest name (first one on ties). -/
def minByName : List Spot → Option Spot
  | [] => none
  | sp :: rest =>
    match minByName rest with
    | none => some sp
    | some sp2 => if charsLE sp.name.toList sp2.name.toList then some sp else some sp2

/-- Mark the spot with the given name occupied. -/
def markOccupied (sps : List Spot) (n : String) : List Spot :=
  sps.map fun sp => if sp.name == n then { sp with occupied := true } else sp

/-- Modelled from the spec: SpotRegistry.tryClaim (backend missing from the
source tree): atomically select the eligible spot with the lowest name and
mark it occupied; none when the eligible set is empty. -/
def tryClaim (sps : List Spot) (ty : String) : Option (String × List Spot) :=
  match minByName (eligList sps ty) with
  | none => none
  | some sp => some (sp.name, markOccupied sps sp.name)

/-- Modelled from the spec: SpotRegistry.release (backend missing from the
source tree): clear the occupied flag; idempotent. -/
def releaseSpots (sps : List Spot) (n : String) : List Spot :=
  sps.map fun sp => if sp.name == n then { sp with occupied := false } else sp

/-- Convert a reservation-held spot into an occupied one at check-in. -/
def claimHeldSpots (sps : List Spot) (n : String) : List Spot :=
  sps.map fun sp =>
    if sp.name == n then { sp with occupied := true, reserved := false } else sp

/-- Modelled from the spec: SpotRegistry.unreserve (backend missing from the
source tree): clear the reserved flag of the named spot. -/
def unreserveSpots (sps : List Spot) (n : String) : List Spot :=
  sps.map fun sp => if sp.name == n then { sp with reserved := false } else sp

/-- Apply a spot-list update inside the first facility with the given id. -/
def mapFacility : List Facility → Nat → (List Spot → List Spot) → List Facility
  | [], _, _ => []
  | f :: fs, fid, g =>
    if f.fid == fid then { f with spots := g f.spots } :: fs
    else f :: mapFacility fs fid g

/-- Claim a spot inside the first facility with the given id. -/
def claimSpot : List Facility → Nat → String → Option (String × List Facility)
  | [], _, _ => none
  | f :: fs, fid, ty =>
    if f.fid == fid then
      match tryClaim f.spots ty with
      | none => none
      | some (n, sps) => some (n, { f with spots := sps } :: fs)
    else
      match claimSpot fs fid ty with
      | none => none
      | some (n, fs2) => some (n, f :: fs2)

/-- The first facility with the given id. -/
def findFac (fs : List Facility) (fid : Nat) : Option Facility :=
  fs.find? fun f => f.fid == fid

/-- The named spot of the given facility, when both exist. -/
def getSpot (fs : List Facility) (fid : Nat) (n : String) : Option Spot :=
  (findFac fs fid).bind fun f => f.spots.find? fun sp => sp.name == n

/-- Whether the named spot of the facility is currently occupied. -/
def spotOccupied (fs : List Facility) (fid : Nat) (n : String) : Bool :=
  ((getSpot fs fid n).map Spot.occupied).getD false

/-- Whether the named spot of the facility is currently held reserved. -/
def spotHeld (fs : List Facility) (fid : Nat) (n : String) : Bool :=
  ((getSpot fs fid n).map Spot.reserved).getD false

/-- The hourly rate of the facility (0 when unknown). -/
def facRate (fs : List Facility) (fid : Nat) : Nat :=
  ((findFac fs fid).map Facility.hourlyRate).getD 0

/-- The eligible spots of the facility for a requested type. -/
def eligOf (fs : List Facility) (fid : Nat) (ty : String) : List Spot :=
  match findFac fs fid with
  | none => []
  | some f => eligList f.spots ty

/-- Modelled from the spec: PricingCalculator.computeFee (backend missing from
the source tree): subscription sessions are free; otherwise the duration is
billed per started hour (ceiling division) times the hourly rate. -/
def computeFee : SessionType → Nat → Nat → Nat
  | .subscription, _, _ => 0
  | _, d, r => ((d + 59) / 60) * r

/-- First wallet balance recorded for the account. -/
def lookupBal : List (Nat × Int) → Nat → Option Int
  | [], _ => none
  | (k, v) :: ws, a => if k == a then some v else lookupBal ws a

/-- Overwrite the balance recorded for the account. -/
def setBal : List (Nat × Int) → Nat → Int → List (Nat × Int)
  | [], _, _ => []
  | (k, v) :: ws, a, b =>
    if k == a then (k, b) :: setBal ws a b else (k, v) :: setBal ws a b

/-- Modelled from the spec: WalletLedger.debit (backend missing from the
source tree): atomically check balance and decrement in the same step; fail
with insufficientFunds without side effects otherwise. -/
def debit (ws : List (Nat × Int)) (a : Nat) (amt : Nat) :
    Except EngineError (List (Nat × Int)) :=
  match lookupBal ws a with
  | none => .error .notFound
  | some b =>
    if (amt : Int) ≤ b then .ok (setBal ws a (b - amt))
    else .error .insufficientFunds

/-- Modelled from the spec: WalletLedger.credit (backend missing from the
source tree): unconditional top-up. -/
def credit (ws : List (Nat × Int)) (a : Nat) (amt : Nat) : List (Nat × Int) :=
  match lookupBal ws a with
  | none => ws ++ [(a, (amt : Int))]
  | some b => setBal ws a (b + amt)

/-- Whether the session is an open (no exit time) session for the plate. -/
def isOpenFor (p : String) (x : Session) : Bool :=
  x.plate == p && x.exitTime == none

/-- The first open session for the plate. -/
def findOpen (l : List Session) (p : String) : Option Session :=
  l.find? (isOpenFor p)

/-- Whether any open session exists for the plate, system-wide. -/
def hasOpen (l : List Session) (p : String) : Bool :=
  (findOpen l p).isSome

/-- Number of open sessions for the plate. -/
def countOpen (l : List Session) (p : String) : Nat :=
  (l.filter (isOpenFor p)).length

/-- Close the first open session for the plate, writing exit time, duration,
fee and payment status. -/
def closeFirst : List Session → String → Nat → Nat → Nat → PayStatus → List Session
  | [], _, _, _, _, _ => []
  | x :: t, p, tNow, dur, fee, ps =>
    if isOpenFor p x then
      { x with exitTime := some tNow, durationMinutes := some dur,
               fee := some fee, payStatus := some ps } :: t
    else x :: closeFirst t p tNow dur fee ps

/-- Modelled from the spec: the checked-in-eligible reservation for this
vehicle and facility whose window contains now (backend missing from the
source tree). -/
def eligRes (l : List Reservation) (p : String) (fid tNow : Nat) :
    Option Reservation :=
  l.find? fun r =>
    r.plate == p && r.fid == fid && r.status == ResStatus.confirmed &&
      decide (r.windowStart ≤ tNow) && decide (tNow < r.windowEnd)

/-- Set the status of every reservation with the given id. -/
def setResStatus (l : List Reservation) (i : Nat) (st : ResStatus) :
    List Reservation :=
  l.map fun r => if r.rid == i then { r with status := st } else r

/-- The status of the first reservation with the given id. -/
def resStatusById (l : List Reservation) (i : Nat) : Option ResStatus :=
  (l.find? fun r => r.rid == i).map Reservation.status

/-- Modelled from the spec: whether an active subscription covers this
vehicle and facility at the given time (backend missing from the source
tree). -/
def hasActiveSub (l : List Subscription) (p : String) (fid tNow : Nat) : Bool :=
  l.any fun sub =>
    sub.plate == p && sub.fid == fid && sub.status == SubStatus.active &&
      decide (sub.startDate ≤ tNow) && decide (tNow < sub.endDate)

/-- The owning account of a registered plate. -/
def lookupAcc : List (String × Nat) → String → Option Nat
  | [], _ => none
  | (k, v) :: l, p => if k == p then some v else lookupAcc l p

/-- A freshly opened session record. -/
def mkOpenSession (p : String) (fid : Nat) (n : String) (tNow : Nat)
    (ty : SessionType) : Session :=
  { plate := p, fid := fid, spotName := n, entryTime := tNow, exitTime := none,
    durationMinutes := none, fee := none, payStatus := none, sType := ty }

/-- Modelled from the spec: SessionLifecycle.openSession (backend
routes_sessions.py missing from the source tree).  Fails with alreadyParked
when an open session exists for the plate anywhere; otherwise resolves the
spot by priority: eligible reservation, then active subscription, then
walk-in; gate action is open for registered plates and pending otherwise. -/
def openSession (s : EngineState) (p : String) (fid : Nat) :
    Except EngineError (EntryResult × EngineState) :=
  if hasOpen s.sessions p then .error .alreadyParked
  else
    let isReg := (lookupAcc s.vehicles p).isSome
    let gate := if isReg then "open" else "pending"
    match eligRes s.reservations p fid s.now with
    | some r =>
      .ok ({ spotName := r.spotName, sType := .reserved, isRegistered := isReg,
             gateAction := gate },
           { s with
              facilities :=
                mapFacility s.facilities fid fun sps => claimHeldSpots sps r.spotName,
              reservations := setResStatus s.reservations r.rid .checked_in,
              sessions := mkOpenSession p fid r.spotName s.now .reserved :: s.sessions })
    | none =>
      let ty := if hasActiveSub s.subs p fid s.now then SessionType.subscription
                else SessionType.walk_in
      match claimSpot s.facilities fid "regular" with
      | none => .error .noSpotAvailable
      | some (n, fs2) =>
        .ok ({ spotName := n, sType := ty, isRegistered := isReg,
               gateAction := gate },
             { s with facilities := fs2,
                      sessions := mkOpenSession p fid n s.now ty :: s.sessions })

/-- Modelled from the spec: payment settlement on exit (backend missing from
the source tree): a zero fee is waived; a wallet payment is debited when the
balance suffices and otherwise degrades to a pending (unpaid) close. -/
def settle (s : EngineState) (p m : String) (fee : Nat) :
    PayStatus × List (Nat × Int) :=
  if fee = 0 then (.waived, s.wallets)
  else if m == "wallet" then
    match lookupAcc s.vehicles p with
    | none => (.pending, s.wallets)
    | some a =>
      match debit s.wallets a fee with
      | .ok ws2 => (.paid, ws2)
      | .error _ => (.pending, s.wallets)
  else (.pending, s.wallets)

/-- Modelled from the spec: SessionLifecycle.closeSession (backend missing
from the source tree).  Fails with noActiveSession when no open session
exists; otherwise always releases the spot, computes the fee, settles the
payment and closes the session with gate action open. -/
def closeSession (s : EngineState) (p m : String) :
    Except EngineError (ExitResult × EngineState) :=
  match findOpen s.sessions p with
  | none => .error .noActiveSession
  | some sess =>
    let dur := s.now - sess.entryTime
    let fee := computeFee sess.sType dur (facRate s.facilities sess.fid)
    let ps := (settle s p m fee).1
    .ok ({ durationMinutes := dur, fee := fee, payStatus := ps, gateAction := "open" },
         { s with
            facilities :=
              mapFacility s.facilities sess.fid fun sps => releaseSpots sps sess.spotName,
            sessions := closeFirst s.sessions p s.now dur fee ps,
            wallets := (settle s p m fee).2 })

/-- Modelled from the spec: ReservationStateMachine.cancel (backend missing
from the source tree): allowed only from pending or confirmed, releasing the
held spot; fails with invalidTransition otherwise. -/
def cancelReservation (s : EngineState) (i : Nat) : Except EngineError EngineState :=
  match s.reservations.find? (fun r => r.rid == i) with
  | none => .error .notFound
  | some r =>
    if r.status = ResStatus.pending ∨ r.status = ResStatus.confirmed then
      .ok { s with
              reservations := setResStatus s.reservations i .cancelled,
              facilities :=
                mapFacility s.facilities r.fid fun sps => unreserveSpots sps r.spotName }
    else .error .invalidTransition

/-- The database status strings of the reservation statuses, as they appear
in the schema and in the JSON consumed by the frontend. -/
def statusKey : ResStatus → String
  | .pending => "pending"
  | .confirmed => "confirmed"
  | .checked_in => "checked_in"
  | .completed => "completed"
  | .cancelled => "cancelled"
  | .no_show => "no_show"

/-- The guard of the Cancel action in Reservations.jsx:
the button renders only when the status string is pending or confirmed. -/
def showCancelButton (st : String) : Bool :=
  ["pending", "confirmed"].contains st

/-- A parking spot as consumed by Dashboard.jsx from the spots API. -/
structure DSpot where
  sid : Nat
  spot_name : String
  is_occupied : Bool
deriving DecidableEq

/-- JavaScript array indexing: undefined (none) when out of range. -/
def jsGet {α : Type} (l : List α) (i : Nat) : Option α :=
  l.get? i

/-- JavaScript Array.prototype.indexOf on a present candidate: index of the
first strictly-equal element, or -1 when absent. -/
def jsIndexOfFound : List DSpot → DSpot → Int
  | [], _ => -1
  | a :: t, x =>
    if a = x then 0
    else
      let r := jsIndexOfFound t x
      if r = -1 then -1 else r + 1

/-- JavaScript Array.prototype.indexOf; indexOf(undefined) is -1 because no
element is strictly equal to undefined. -/
def jsIndexOf (l : List DSpot) (x : Option DSpot) : Int :=
  match x with
  | none => -1
  | some v => jsIndexOfFound l v

/-- JavaScript Array.prototype.map with the element index, starting at a
given index. -/
def jsMapIdxFrom {α β : Type} (f : Nat → α → β) : Nat → List α → List β
  | _, [] => []
  | i, a :: t => f i a :: jsMapIdxFrom f (i + 1) t

/-- JavaScript Array.prototype.map with the element index. -/
def jsMapIdx {α β : Type} (f : Nat → α → β) (l : List α) : List β :=
  jsMapIdxFrom f 0 l

/-- The busyIndices expression of Dashboard.jsx: filter the occupied spots,
then map each position i of that list to the index found by re-filtering the
spots and looking the i-th occupied spot up with indexOf. -/
def busyIndices (spots : List DSpot) : List Int :=
  jsMapIdx
    (fun i _ => jsIndexOf spots (jsGet (spots.filter fun s => s.is_occupied) i))
    (spots.filter fun s => s.is_occupied)

/-- The ascending indices, from a given start, of the occupied spots. -/
def occIdxFrom : List DSpot → Nat → List Int
  | [], _ => []
  | a :: t, i =>
    if a.is_occupied then (i : Int) :: occIdxFrom t (i + 1)
    else occIdxFrom t (i + 1)

/-- Spec-side definition for the refinement claim, following its words: the
straightforward enumerate-then-filter list of indices i such that the i-th
spot is occupied. -/
def busyIndicesSpec (spots : List DSpot) : List Int :=
  occIdxFrom spots 0

/-- Billing in started hours agrees with the rational ceiling of d / 60. -/
theorem ceil_div_sixty (d : Nat) :
    ⌈(d : ℚ) / 60⌉ = (((d + 59) / 60 : Nat) : ℤ) := by
  have hm := Nat.div_add_mod (d + 59) 60
  have hlt : (d + 59) % 60 < 60 := Nat.mod_lt _ (by norm_num)
  have h1 : 60 * ((d + 59) / 60) < d + 60 := by omega
  have h2 : d ≤ 60 * ((d + 59) / 60) := by omega
  rw [Int.ceil_eq_iff]
  refine ⟨?_, ?_⟩
  · rw [lt_div_iff₀ (by norm_num : (0:ℚ) < 60)]
    have h1q : (60 : ℚ) * (((d + 59) / 60 : Nat) : ℚ) < (d : ℚ) + 60 := by
      exact_mod_cast h1
    have hq : ((((d + 59) / 60 : Nat) : ℚ) - 1) * 60 < (d : ℚ) := by linarith
    exact_mod_cast hq
  · rw [div_le_iff₀ (by norm_num : (0:ℚ) < 60)]
    have h2q : (d : ℚ) ≤ 60 * (((d + 59) / 60 : Nat) : ℚ) := by exact_mod_cast h2
    have hq : (d : ℚ) ≤ (((d + 59) / 60 : Nat) : ℚ) * 60 := by linarith
    exact_mod_cast hq

/-- A positive duration is billed at least one hour. -/
theorem hours_pos (d : Nat) (hd : 0 < d) : 1 ≤ (d + 59) / 60 := by omega

/-- C2: for every non-subscription session of duration d minutes at hourly
rate r, the fee equals the ceiling of d / 60 hours times r, is at least r
whenever d is positive, and in particular r = 150 with d = 5 gives 150 and
with d = 127 gives 450. -/
theorem fee_ceiling (t : SessionType) (d r : Nat)
    (ht : t ≠ SessionType.subscription) :
    ((computeFee t d r : ℤ) = ⌈(d : ℚ) / 60⌉ * r) ∧
    (0 < d → r ≤ computeFee t d r) ∧
    computeFee t 5 150 = 150 ∧ computeFee t 127 150 = 450 := by
  have key : ∀ d' r' : Nat, ((((d' + 59) / 60) * r' : Nat) : ℤ) = ⌈(d' : ℚ) / 60⌉ * r' := by
    intro d' r'
    rw [ceil_div_sixty]
    push_cast
    ring
  have key2 : ∀ d' r' : Nat, 0 < d' → r' ≤ ((d' + 59) / 60) * r' := by
    intro d' r' hd
    have h1 : 1 ≤ (d' + 59) / 60 := hours_pos d' hd
    calc r' = 1 * r' := (one_mul r').symm
    _ ≤ ((d' + 59) / 60) * r' := Nat.mul_le_mul_right r' h1
  cases t with
  | subscription => exact absurd rfl ht
  | walk_in => exact ⟨key d r, key2 d r, by decide, by decide⟩
  | reserved => exact ⟨key d r, key2 d r, by decide, by decide⟩

/-- C2 witness: the concrete fees of the spec examples. -/
theorem fee_ceiling_witness :
    computeFee SessionType.walk_in 5 150 = 150 ∧
    computeFee SessionType.walk_in 127 150 = 450 ∧
    150 ≤ computeFee SessionType.walk_in 5 150 := by
  have h := fee_ceiling SessionType.walk_in 5 150 (by decide)
  exact ⟨h.2.2.1, h.2.2.2, h.2.1 (by decide)⟩

/-- Setting a present balance is visible to the next lookup. -/
theorem lookupBal_setBal (ws : List (Nat × Int)) (a : Nat) (b v : Int)
    (h : lookupBal ws a = some b) :
    lookupBal (setBal ws a v) a = some v := by
  induction ws with
  | nil => simp [lookupBal] at h
  | cons kv ws ih =>
    obtain ⟨k, w⟩ := kv
    by_cases hk : k = a
    · simp [lookupBal, setBal, hk]
    · simp [lookupBal, setBal, hk] at h ⊢
      exact ih h

/-- C5: a wallet debit decrements the balance by the amount exactly when the
amount is covered, otherwise fails with insufficientFunds leaving the wallet
untouched; a successful debit never produces a negative balance, and a credit
increases the balance, preserving non-negativity. -/
theorem wallet_debit_atomic (ws : List (Nat × Int)) (a : Nat) (amt : Nat) (b : Int)
    (h : lookupBal ws a = some b) :
    ((amt : Int) ≤ b →
       debit ws a amt = .ok (setBal ws a (b - amt)) ∧
       lookupBal (setBal ws a (b - amt)) a = some (b - amt) ∧
       0 ≤ b - (amt : Int)) ∧
    (b < (amt : Int) → debit ws a amt = .error .insufficientFunds) ∧
    (∀ amt2 : Nat, lookupBal (credit ws a amt2) a = some (b + amt2) ∧
       (0 ≤ b → 0 ≤ b + (amt2 : Int))) := by
  refine ⟨fun hle => ?_, fun hlt => ?_, fun amt2 => ?_⟩
  · exact ⟨by simp [debit, h, hle], lookupBal_setBal ws a b _ h, sub_nonneg.mpr hle⟩
  · have hn : ¬ ((amt : Int) ≤ b) := not_le.mpr hlt
    simp [debit, h, hn]
  · refine ⟨?_, fun hb => add_nonneg hb (by positivity)⟩
    simp only [credit, h]
    exact lookupBal_setBal ws a b _ h

/-- C5 witness: a covered debit decrements, an uncovered one fails. -/
theorem wallet_debit_atomic_witness :
    debit [(7, 500)] 7 200 = .ok [(7, 300)] ∧
    debit [(7, 100)] 7 450 = .error .insufficientFunds := by
  have h1 := wallet_debit_atomic [(7, 500)] 7 200 500 rfl
  have h2 := wallet_debit_atomic [(7, 100)] 7 450 100 rfl
  refine ⟨?_, h2.2.1 (by norm_num)⟩
  have hd := (h1.1 (by norm_num)).1
  exact hd

/-- charsLE decides the lexicographic order on character lists. -/
theorem charsLE_iff (cs : List Char) : ∀ ds, charsLE cs ds = true ↔ ¬ ds < cs := by
  induction cs with
  | nil =>
    intro ds
    apply iff_of_true
    · cases ds <;> rfl
    · intro h
      cases h
  | cons c cs ih =>
    intro ds
    cases ds with
    | nil =>
      apply iff_of_false
      · simp [charsLE]
      · intro hn
        exact hn List.Lex.nil
    | cons d ds =>
      by_cases h1 : c < d
      · apply iff_of_true
        · simp [charsLE, h1]
        · intro hlt
          cases hlt with
          | cons h => exact absurd h1 (lt_irrefl _)
          | rel h => exact lt_asymm h1 h
      · by_cases h2 : d < c
        · apply iff_of_false
          · simp [charsLE, h1, h2]
          · intro hn
            exact hn (List.Lex.rel h2)
        · have heq : c = d := le_antisymm (not_lt.mp h2) (not_lt.mp h1)
          subst heq
          have hstep : charsLE (c :: cs) (c :: ds) = charsLE cs ds := by
            simp [charsLE]
          rw [hstep, ih ds]
          constructor
          · intro hnd hlt
            cases hlt with
            | cons h => exact hnd h
            | rel h => exact absurd h (lt_irrefl _)
          · intro hncons hlt
            exact hncons (List.Lex.cons hlt)

/-- charsLE on the character lists decides the standard order on strings. -/
theorem charsLE_le (a b : String) : charsLE a.toList b.toList = true ↔ a ≤ b := by
  rw [charsLE_iff, String.le_iff_toList_le]
  exact not_lt

/-- A nonempty spot list always has a name-minimal spot. -/
theorem minByName_eq_none (l : List Spot) : minByName l = none ↔ l = [] := by
  cases l with
  | nil => simp [minByName]
  | cons a t =>
    simp only [minByName]
    cases hm : minByName t <;> simp [hm]
    split <;> simp

/-- The name-minimal spot is one of the spots. -/
theorem minByName_mem (l : List Spot) (sp : Spot) (h : minByName l = some sp) :
    sp ∈ l := by
  induction l generalizing sp with
  | nil => simp [minByName] at h
  | cons a t ih =>
    cases hm : minByName t with
    | none =>
      simp [minByName, hm] at h
      subst h
      exact List.mem_cons_self _ _
    | some b =>
      simp only [minByName, hm] at h
      by_cases hle : charsLE a.name.toList b.name.toList = true
      · rw [if_pos hle] at h
        have he := Option.some.inj h
        subst he
        exact List.mem_cons_self _ _
      · rw [if_neg hle] at h
        have he := Option.some.inj h
        subst he
        exact List.mem_cons_of_mem a (ih b hm)

/-- The name-minimal spot has the lexicographically lowest name. -/
theorem minByName_le (l : List Spot) (sp : Spot) (h : minByName l = some sp) :
    ∀ x ∈ l, sp.name ≤ x.name := by
  induction l generalizing sp with
  | nil => simp [minByName] at h
  | cons a t ih =>
    cases hm : minByName t with
    | none =>
      have ht : t = [] := (minByName_eq_none t).mp hm
      subst ht
      simp [minByName] at h
      subst h
      intro x hx
      simp at hx
      subst hx
      exact le_refl _
    | some b =>
      simp only [minByName, hm] at h
      by_cases hle : charsLE a.name.toList b.name.toList = true
      · rw [if_pos hle] at h
        have he := Option.some.inj h
        subst he
        have hab : a.name ≤ b.name := (charsLE_le _ _).mp hle
        intro x hx
        rcases List.mem_cons.mp hx with heq | hx'
        · subst heq
          exact le_refl _
        · exact le_trans hab (ih b hm x hx')
      · rw [if_neg hle] at h
        have he := Option.some.inj h
        subst he
        have hba : b.name ≤ a.name :=
          le_of_not_le fun hab => hle ((charsLE_le _ _).mpr hab)
        intro x hx
        rcases List.mem_cons.mp hx with heq | hx'
        · subst heq
          exact hba
        · exact ih b hm x hx'

/-- Marking one spot occupied removes exactly the spots with that name from
the eligible set. -/
theorem eligList_markOccupied (sps : List Spot) (n ty : String) :
    eligList (markOccupied sps n) ty =
      (eligList sps ty).filter fun sp => !(sp.name == n) := by
  rw [eligList, eligList, markOccupied, List.filter_map, List.filter_filter]
  have hpt : (eligSpot ty ∘ fun sp =>
      if sp.name == n then { sp with occupied := true } else sp) =
      fun sp => eligSpot ty sp && !(sp.name == n) := by
    funext sp
    by_cases h : sp.name = n <;> simp [eligSpot, h]
  rw [hpt]
  have h1 : ∀ x ∈ sps.filter (fun sp => eligSpot ty sp && !(sp.name == n)),
      (if x.name == n then { x with occupied := true } else x) = x := by
    intro x hx
    have hx2 := List.of_mem_filter hx
    simp only [Bool.and_eq_true, Bool.not_eq_true', beq_eq_false_iff_ne] at hx2
    simp [hx2.2]
  rw [List.map_congr_left h1, List.map_id']
  exact List.filter_congr fun x _ => by rw [Bool.and_comm]

/-- tryClaim characterization: failure exactly on an empty eligible set,
otherwise the lowest-named eligible spot is claimed and marked occupied. -/
theorem tryClaim_spec (sps : List Spot) (ty : String) :
    (tryClaim sps ty = none ↔ eligList sps ty = []) ∧
    (∀ n sps2, tryClaim sps ty = some (n, sps2) →
       (∃ sp ∈ eligList sps ty, sp.name = n) ∧
       (∀ x ∈ eligList sps ty, n ≤ x.name) ∧
       sps2 = markOccupied sps n) := by
  constructor
  · constructor
    · intro h0
      unfold tryClaim at h0
      cases hm : minByName (eligList sps ty) with
      | none => exact (minByName_eq_none _).mp hm
      | some sp => rw [hm] at h0; simp at h0
    · intro he
      unfold tryClaim
      rw [he]
      rfl
  · intro n sps2 h
    unfold tryClaim at h
    cases hm : minByName (eligList sps ty) with
    | none => rw [hm] at h; simp at h
    | some sp =>
      rw [hm] at h
      simp only [Option.some.injEq, Prod.mk.injEq] at h
      obtain ⟨hn, hs⟩ := h
      subst hn
      refine ⟨⟨sp, minByName_mem _ _ hm, rfl⟩, ?_, hs.symm⟩
      exact minByName_le _ _ hm

/-- Finding a facility stops at a matching head. -/
theorem findFac_cons_pos (f : Facility) (fs : List Facility) (fid : Nat)
    (hf : f.fid = fid) : findFac (f :: fs) fid = some f := by
  unfold findFac
  exact List.find?_cons_of_pos _ (by simp [hf])

/-- Finding a facility skips a non-matching head. -/
theorem findFac_cons_neg (f : Facility) (fs : List Facility) (fid : Nat)
    (hf : f.fid ≠ fid) : findFac (f :: fs) fid = findFac fs fid := by
  unfold findFac
  exact List.find?_cons_of_neg _ (by simp [hf])

/-- Eligible spots of a facility list with a matching head. -/
theorem eligOf_cons_pos (f : Facility) (fs : List Facility) (fid : Nat)
    (ty : String) (hf : f.fid = fid) :
    eligOf (f :: fs) fid ty = eligList f.spots ty := by
  simp [eligOf, findFac_cons_pos f fs fid hf]

/-- Eligible spots of a facility list with a non-matching head. -/
theorem eligOf_cons_neg (f : Facility) (fs : List Facility) (fid : Nat)
    (ty : String) (hf : f.fid ≠ fid) :
    eligOf (f :: fs) fid ty = eligOf fs fid ty := by
  simp [eligOf, findFac_cons_neg f fs fid hf]

/-- claimSpot fails when the addressed facility has no eligible spot. -/
theorem claimSpot_none (fs : List Facility) (fid : Nat) (ty : String)
    (h : eligOf fs fid ty = []) : claimSpot fs fid ty = none := by
  induction fs with
  | nil => rfl
  | cons f fs ih =>
    by_cases hf : f.fid = fid
    · have he : eligList f.spots ty = [] := by
        rw [eligOf_cons_pos f fs fid ty hf] at h
        exact h
      have ht : tryClaim f.spots ty = none :=
        (tryClaim_spec f.spots ty).1.mpr he
      simp [claimSpot, hf, ht]
    · have h' : eligOf fs fid ty = [] := by
        rw [eligOf_cons_neg f fs fid ty hf] at h
        exact h
      simp [claimSpot, hf, ih h']

/-- When the addressed facility has exactly one eligible spot, claimSpot
claims it and no eligible spot remains. -/
theorem claimSpot_single (fs : List Facility) (fid : Nat) (ty : String) (sp : Spot)
    (h : eligOf fs fid ty = [sp]) :
    ∃ fs2, claimSpot fs fid ty = some (sp.name, fs2) ∧ eligOf fs2 fid ty = [] := by
  induction fs with
  | nil => simp [eligOf, findFac] at h
  | cons f fs ih =>
    by_cases hf : f.fid = fid
    · have he : eligList f.spots ty = [sp] := by
        rw [eligOf_cons_pos f fs fid ty hf] at h
        exact h
      have hmin : minByName (eligList f.spots ty) = some sp := by
        rw [he]
        rfl
      have ht : tryClaim f.spots ty = some (sp.name, markOccupied f.spots sp.name) := by
        unfold tryClaim
        rw [hmin]
      refine ⟨{ f with spots := markOccupied f.spots sp.name } :: fs, ?_, ?_⟩
      · simp [claimSpot, hf, ht]
      · have hmark : eligList (markOccupied f.spots sp.name) ty = [] := by
          rw [eligList_markOccupied, he]
          simp
        rw [eligOf_cons_pos { f with spots := markOccupied f.spots sp.name } fs fid ty hf]
        exact hmark
    · have h' : eligOf fs fid ty = [sp] := by
        rw [eligOf_cons_neg f fs fid ty hf] at h
        exact h
      obtain ⟨fs2, hc, he2⟩ := ih h'
      refine ⟨f :: fs2, ?_, ?_⟩
      · simp [claimSpot, hf, hc]
      · rw [eligOf_cons_neg f fs2 fid ty hf]
        exact he2

/-- C8: tryClaim fails exactly when the eligible set (matching type, active,
not occupied, not reserved) is empty, and otherwise claims the eligible spot
with the lexicographically lowest name, marking exactly it occupied. -/
theorem tryClaim_lowest_name (sps : List Spot) (ty : String) :
    (tryClaim sps ty = none ↔ eligList sps ty = []) ∧
    (∀ n sps2, tryClaim sps ty = some (n, sps2) →
       (∃ sp ∈ eligList sps ty, sp.name = n) ∧
       (∀ x ∈ eligList sps ty, n ≤ x.name) ∧
       sps2 = markOccupied sps n) :=
  tryClaim_spec sps ty

/-- C8 witness: among two eligible spots the lower name A-01 is claimed. -/
theorem tryClaim_lowest_name_witness :
    (∃ sp ∈ eligList
        [⟨"B-02", "regular", false, false, true⟩,
         ⟨"A-01", "regular", false, false, true⟩,
         ⟨"C-03", "regular", true, false, true⟩] "regular", sp.name = "A-01") ∧
    (∀ x ∈ eligList
        [⟨"B-02", "regular", false, false, true⟩,
         ⟨"A-01", "regular", false, false, true⟩,
         ⟨"C-03", "regular", true, false, true⟩] "regular", "A-01" ≤ x.name) ∧
    markOccupied
        [⟨"B-02", "regular", false, false, true⟩,
         ⟨"A-01", "regular", false, false, true⟩,
         ⟨"C-03", "regular", true, false, true⟩] "A-01" =
      markOccupied
        [⟨"B-02", "regular", false, false, true⟩,
         ⟨"A-01", "regular", false, false, true⟩,
         ⟨"C-03", "regular", true, false, true⟩] "A-01" := by
  have h := (tryClaim_lowest_name
    [⟨"B-02", "regular", false, false, true⟩,
     ⟨"A-01", "regular", false, false, true⟩,
     ⟨"C-03", "regular", true, false, true⟩] "regular").2 "A-01"
    (markOccupied
      [⟨"B-02", "regular", false, false, true⟩,
       ⟨"A-01", "regular", false, false, true⟩,
       ⟨"C-03", "regular", true, false, true⟩] "A-01") (by rfl)
  exact ⟨h.1, h.2.1, rfl⟩

/-- A successful openSession happens only when the plate is not parked, and
prepends exactly one fresh open session for the plate. -/
theorem openSession_ok_shape (s : EngineState) (p : String) (fid : Nat)
    (res : EntryResult) (s' : EngineState)
    (h : openSession s p fid = .ok (res, s')) :
    hasOpen s.sessions p = false ∧
    ∃ sess : Session, s'.sessions = sess :: s.sessions ∧
      sess.plate = p ∧ sess.exitTime = none := by
  unfold openSession at h
  by_cases hp : hasOpen s.sessions p = true
  · rw [if_pos hp] at h
    exact absurd h (by simp)
  · rw [if_neg hp] at h
    refine ⟨by simpa using hp, ?_⟩
    cases hr : eligRes s.reservations p fid s.now with
    | some r =>
      simp only [hr, Except.ok.injEq, Prod.mk.injEq] at h
      obtain ⟨hres, hs'⟩ := h
      subst hs'
      exact ⟨mkOpenSession p fid r.spotName s.now .reserved, rfl, rfl, rfl⟩
    | none =>
      cases hc : claimSpot s.facilities fid "regular" with
      | none =>
        simp only [hr, hc] at h
        exact absurd h (by simp)
      | some pr =>
        obtain ⟨n, fs2⟩ := pr
        simp only [hr, hc, Except.ok.injEq, Prod.mk.injEq] at h
        obtain ⟨hres, hs'⟩ := h
        subst hs'
        exact ⟨mkOpenSession p fid n s.now _, rfl, rfl, rfl⟩

/-- A plate with no open session has zero open sessions. -/
theorem countOpen_zero (l : List Session) (p : String)
    (hp : hasOpen l p = false) : countOpen l p = 0 := by
  unfold hasOpen at hp
  cases hfind : findOpen l p with
  | none =>
    unfold findOpen at hfind
    unfold countOpen
    have hall : ∀ x ∈ l, ¬ isOpenFor p x = true := List.find?_eq_none.mp hfind
    rw [List.filter_eq_nil_iff.mpr hall]
    rfl
  | some x =>
    rw [hfind] at hp
    simp at hp

/-- C4: openSession rejects a plate that is already parked anywhere with
alreadyParked, and a successful openSession preserves the invariant that
every plate has at most one open session system-wide. -/
theorem already_parked_unique (s : EngineState) (p : String) (fid : Nat) :
    (hasOpen s.sessions p = true → openSession s p fid = .error .alreadyParked) ∧
    (∀ res s', openSession s p fid = .ok (res, s') →
       (∀ q, countOpen s.sessions q ≤ 1) → ∀ q, countOpen s'.sessions q ≤ 1) := by
  constructor
  · intro hp
    unfold openSession
    rw [if_pos hp]
  · intro res s' h hinv q
    obtain ⟨hp, sess, hs, hpl, hex⟩ := openSession_ok_shape s p fid res s' h
    rw [hs]
    by_cases hq : q = p
    · subst hq
      have h0 : countOpen s.sessions q = 0 := countOpen_zero s.sessions q hp
      have hopen : isOpenFor q sess = true := by simp [isOpenFor, hpl, hex]
      unfold countOpen at h0 ⊢
      rw [List.filter_cons_of_pos hopen, List.length_cons, h0]
    · have hno : ¬ isOpenFor q sess = true := by
        simp only [isOpenFor, hpl, hex, Bool.and_eq_true, beq_iff_eq]
        intro hcon
        exact hq hcon.1.symm
      unfold countOpen
      rw [List.filter_cons_of_neg hno]
      exact hinv q

/-- C4 witness: a second entry for an already parked plate is rejected. -/
theorem already_parked_unique_witness :
    openSession
      ⟨[], [mkOpenSession "WP CA-1234" 1 "A-01" 0 SessionType.walk_in], [], [], [], [], 5⟩
      "WP CA-1234" 1 = .error .alreadyParked :=
  (already_parked_unique
    ⟨[], [mkOpenSession "WP CA-1234" 1 "A-01" 0 SessionType.walk_in], [], [], [], [], 5⟩
    "WP CA-1234" 1).1 rfl

/-- C1: with exactly one eligible spot in the facility and two distinct
unregistered, unparked plates without reservations or subscriptions, the
serialized execution of the two openSession calls grants the spot to the
first (gate action pending) and rejects the second with noSpotAvailable, in
either order, so the spot is never granted twice. -/
theorem spot_claim_serializable (s : EngineState) (p1 p2 : String) (fid : Nat)
    (sp : Spot) (hne : p1 ≠ p2)
    (h1 : hasOpen s.sessions p1 = false) (h2 : hasOpen s.sessions p2 = false)
    (hv1 : lookupAcc s.vehicles p1 = none) (hv2 : lookupAcc s.vehicles p2 = none)
    (hr1 : eligRes s.reservations p1 fid s.now = none)
    (hr2 : eligRes s.reservations p2 fid s.now = none)
    (hs1 : hasActiveSub s.subs p1 fid s.now = false)
    (hs2 : hasActiveSub s.subs p2 fid s.now = false)
    (he : eligOf s.facilities fid "regular" = [sp]) :
    ∃ res s1, openSession s p1 fid = .ok (res, s1) ∧
      res.spotName = sp.name ∧ res.gateAction = "pending" ∧
      res.sType = SessionType.walk_in ∧
      openSession s1 p2 fid = .error .noSpotAvailable := by
  obtain ⟨fs2, hc, he2⟩ := claimSpot_single s.facilities fid "regular" sp he
  refine ⟨⟨sp.name, .walk_in, false, "pending"⟩,
    { s with facilities := fs2,
             sessions := mkOpenSession p1 fid sp.name s.now .walk_in :: s.sessions },
    ?_, rfl, rfl, rfl, ?_⟩
  · unfold openSession
    rw [if_neg (by simp [h1])]
    simp [hr1, hs1, hc, hv1]
  · have hno : hasOpen
        (mkOpenSession p1 fid sp.name s.now SessionType.walk_in :: s.sessions) p2 = false := by
      unfold hasOpen findOpen at h2 ⊢
      rw [List.find?_cons_of_neg _ (by simp [isOpenFor, mkOpenSession, hne])]
      exact h2
    unfold openSession
    rw [if_neg (by simp [hno])]
    simp [hr2, hs2, claimSpot_none fs2 fid "regular" he2, hv2]

/-- C1 witness: the concrete last-free-spot race from the spec, serialized. -/
theorem spot_claim_serializable_witness :
    ∃ res s1,
      openSession
        ⟨[⟨1, 150, [⟨"A-01", "regular", false, false, true⟩,
                    ⟨"A-02", "regular", true, false, true⟩]⟩],
         [], [], [], [], [], 0⟩ "XYZ-999" 1 = .ok (res, s1) ∧
      res.spotName = Spot.name ⟨"A-01", "regular", false, false, true⟩ ∧
      res.gateAction = "pending" ∧
      res.sType = SessionType.walk_in ∧
      openSession s1 "KLM-111" 1 = .error .noSpotAvailable :=
  spot_claim_serializable
    ⟨[⟨1, 150, [⟨"A-01", "regular", false, false, true⟩,
                ⟨"A-02", "regular", true, false, true⟩]⟩],
     [], [], [], [], [], 0⟩ "XYZ-999" "KLM-111" 1
    ⟨"A-01", "regular", false, false, true⟩
    (by decide) rfl rfl rfl rfl rfl rfl rfl rfl rfl

/-- Setting the status of a reservation whose id is present is visible to
the status lookup. -/
theorem resStatusById_set (l : List Reservation) (i : Nat) (st : ResStatus)
    (r : Reservation) (hm : r ∈ l) (hr : r.rid = i) :
    resStatusById (setResStatus l i st) i = some st := by
  induction l with
  | nil => simp at hm
  | cons q t ih =>
    by_cases hq : q.rid = i
    · simp only [setResStatus, resStatusById, List.map_cons]
      rw [if_pos (show (q.rid == i) = true by simp [hq])]
      rw [List.find?_cons_of_pos _ (by simp [hq])]
      rfl
    · rcases List.mem_cons.mp hm with heq | hmem
      · exact absurd (heq ▸ hr) hq
      · have ihh := ih hmem
        simp only [setResStatus, resStatusById, List.map_cons] at ihh ⊢
        rw [if_neg (show ¬ (q.rid == i) = true by simp [hq])]
        rw [List.find?_cons_of_neg _ (by simp [hq])]
        exact ihh

/-- C6: openSession resolves the spot by fixed priority with first match
winning: an eligible reservation is used first (session type reserved, the
reservation moves to checked_in) regardless of subscriptions; otherwise an
active subscription claims a fresh spot (session type subscription);
otherwise a fresh spot is claimed as a walk-in. -/
theorem entry_priority (s : EngineState) (p : String) (fid : Nat)
    (hnp : hasOpen s.sessions p = false) :
    (∀ r, eligRes s.reservations p fid s.now = some r →
       ∃ res s', openSession s p fid = .ok (res, s') ∧
         res.sType = SessionType.reserved ∧ res.spotName = r.spotName ∧
         resStatusById s'.reservations r.rid = some ResStatus.checked_in) ∧
    (eligRes s.reservations p fid s.now = none →
       hasActiveSub s.subs p fid s.now = true →
       ∀ n fs2, claimSpot s.facilities fid "regular" = some (n, fs2) →
         ∃ res s', openSession s p fid = .ok (res, s') ∧
           res.sType = SessionType.subscription ∧ res.spotName = n) ∧
    (eligRes s.reservations p fid s.now = none →
       hasActiveSub s.subs p fid s.now = false →
       ∀ n fs2, claimSpot s.facilities fid "regular" = some (n, fs2) →
         ∃ res s', openSession s p fid = .ok (res, s') ∧
           res.sType = SessionType.walk_in ∧ res.spotName = n) := by
  refine ⟨?_, ?_, ?_⟩
  · intro r hr
    have hrm : r ∈ s.reservations := List.mem_of_find?_eq_some hr
    unfold openSession
    rw [if_neg (by simp [hnp])]
    simp only [hr]
    refine ⟨_, _, rfl, rfl, rfl, ?_⟩
    exact resStatusById_set s.reservations r.rid .checked_in r hrm rfl
  · intro hr hsub n fs2 hc
    unfold openSession
    rw [if_neg (by simp [hnp])]
    simp [hr, hsub, hc]
  · intro hr hsub n fs2 hc
    unfold openSession
    rw [if_neg (by simp [hnp])]
    simp [hr, hsub, hc]

/-- C6 witness: the end-to-end reservation scenario of the spec, with the
held spot B-03 used at 10:00 inside the window and the reservation moved to
checked_in. -/
theorem entry_priority_witness :
    ∃ res s',
      openSession
        ⟨[⟨1, 150, [⟨"B-03", "regular", false, true, true⟩]⟩], [],
         [⟨9, "ABC-1", 1, "B-03", 540, 1020, ResStatus.confirmed⟩],
         [], [], [], 600⟩ "ABC-1" 1 = .ok (res, s') ∧
      res.sType = SessionType.reserved ∧
      res.spotName =
        Reservation.spotName ⟨9, "ABC-1", 1, "B-03", 540, 1020, ResStatus.confirmed⟩ ∧
      resStatusById s'.reservations
        (Reservation.rid ⟨9, "ABC-1", 1, "B-03", 540, 1020, ResStatus.confirmed⟩) =
        some ResStatus.checked_in :=
  (entry_priority
    ⟨[⟨1, 150, [⟨"B-03", "regular", false, true, true⟩]⟩], [],
     [⟨9, "ABC-1", 1, "B-03", 540, 1020, ResStatus.confirmed⟩],
     [], [], [], 600⟩ "ABC-1" 1 rfl).1
    ⟨9, "ABC-1", 1, "B-03", 540, 1020, ResStatus.confirmed⟩ rfl

/-- Updating the spots of the addressed facility commutes with finding it. -/
theorem findFac_mapFacility (fs : List Facility) (fid : Nat)
    (g : List Spot → List Spot) :
    findFac (mapFacility fs fid g) fid =
      (findFac fs fid).map fun f => { f with spots := g f.spots } := by
  induction fs with
  | nil => rfl
  | cons f fs ih =>
    by_cases hf : f.fid = fid
    · simp only [mapFacility]
      rw [if_pos (show (f.fid == fid) = true by simp [hf])]
      rw [findFac_cons_pos { f with spots := g f.spots } fs fid hf]
      rw [findFac_cons_pos f fs fid hf]
      rfl
    · simp only [mapFacility]
      rw [if_neg (show ¬ (f.fid == fid) = true by simp [hf])]
      rw [findFac_cons_neg _ _ _ hf, findFac_cons_neg _ _ _ hf]
      exact ih

/-- After releasing a named spot, the spot found under that name is free. -/
theorem releaseSpots_occ (sps : List Spot) (n : String) :
    ∀ sp, (releaseSpots sps n).find? (fun x => x.name == n) = some sp →
      sp.occupied = false := by
  induction sps with
  | nil =>
    intro sp h
    simp [releaseSpots] at h
  | cons a t ih =>
    intro sp h
    by_cases ha : a.name = n
    · simp only [releaseSpots, List.map_cons] at h
      rw [if_pos (show (a.name == n) = true by simp [ha])] at h
      rw [List.find?_cons_of_pos _ (by simp [ha])] at h
      have he := Option.some.inj h
      rw [← he]
    · simp only [releaseSpots, List.map_cons] at h
      rw [if_neg (show ¬ (a.name == n) = true by simp [ha])] at h
      rw [List.find?_cons_of_neg _ (by simp [ha])] at h
      exact ih sp h

/-- Releasing a spot through the facility map leaves it unoccupied. -/
theorem spotOccupied_release (fs : List Facility) (fid : Nat) (n : String) :
    spotOccupied (mapFacility fs fid fun sps => releaseSpots sps n) fid n = false := by
  unfold spotOccupied getSpot
  rw [findFac_mapFacility]
  cases hf : findFac fs fid with
  | none => rfl
  | some f =>
    cases hfind : (releaseSpots f.spots n).find? (fun sp => sp.name == n) with
    | none => simp [hfind]
    | some sp =>
      have hocc := releaseSpots_occ f.spots n sp hfind
      simp [hfind, hocc]

/-- Closing the first open session for a plate yields a closed record with
the exit data. -/
theorem closeFirst_mem (l : List Session) (p : String) (tN dur fee : Nat)
    (ps : PayStatus) (sess : Session) (h : findOpen l p = some sess) :
    ∃ c, c ∈ closeFirst l p tN dur fee ps ∧ c.plate = sess.plate ∧
      c.exitTime = some tN ∧ c.fee = some fee ∧ c.payStatus = some ps := by
  induction l with
  | nil => simp [findOpen] at h
  | cons x t ih =>
    by_cases hx : isOpenFor p x = true
    · unfold findOpen at h
      rw [List.find?_cons_of_pos _ hx] at h
      have hxs := Option.some.inj h
      subst hxs
      unfold closeFirst
      rw [if_pos hx]
      exact ⟨_, List.mem_cons_self _ _, rfl, rfl, rfl, rfl⟩
    · unfold findOpen at h
      rw [List.find?_cons_of_neg _ hx] at h
      obtain ⟨c, hc, h2, h3, h4, h5⟩ := ih h
      unfold closeFirst
      rw [if_neg hx]
      exact ⟨c, List.mem_cons_of_mem _ hc, h2, h3, h4, h5⟩

/-- C3: closeSession on an open session always succeeds with gate action
open, always frees the bound spot and closes the session; when the wallet
debit would not be covered, the close still happens with payment status
pending and the wallets untouched. -/
theorem close_releases_spot (s : EngineState) (p m : String) (sess : Session)
    (h : findOpen s.sessions p = some sess) :
    ∃ res s', closeSession s p m = .ok (res, s') ∧
      res.gateAction = "open" ∧
      spotOccupied s'.facilities sess.fid sess.spotName = false ∧
      (∃ c, c ∈ s'.sessions ∧ c.plate = sess.plate ∧ c.exitTime = some s.now) ∧
      (∀ a b, m = "wallet" → lookupAcc s.vehicles p = some a →
        lookupBal s.wallets a = some b → 0 ≤ b →
        b < (computeFee sess.sType (s.now - sess.entryTime)
              (facRate s.facilities sess.fid) : Int) →
        res.payStatus = PayStatus.pending ∧ s'.wallets = s.wallets) := by
  unfold closeSession
  simp only [h]
  refine ⟨_, _, rfl, rfl, ?_, ?_, ?_⟩
  · exact spotOccupied_release s.facilities sess.fid sess.spotName
  · obtain ⟨c, hc, h2, h3, _, _⟩ := closeFirst_mem s.sessions p s.now _ _ _ sess h
    exact ⟨c, hc, h2, h3⟩
  · intro a b hm ha hb hbnn hlt
    subst hm
    have hfee : computeFee sess.sType (s.now - sess.entryTime)
        (facRate s.facilities sess.fid) ≠ 0 := by
      intro h0
      rw [h0] at hlt
      have hb0 : b < 0 := by exact_mod_cast hlt
      omega
    have hdeb : debit s.wallets a (computeFee sess.sType (s.now - sess.entryTime)
        (facRate s.facilities sess.fid)) = .error .insufficientFunds := by
      unfold debit
      rw [hb]
      simp [not_le.mpr hlt]
    have hsettle : settle s p "wallet" (computeFee sess.sType (s.now - sess.entryTime)
        (facRate s.facilities sess.fid)) = (PayStatus.pending, s.wallets) := by
      unfold settle
      rw [if_neg hfee]
      rw [if_pos (show ("wallet" == "wallet") = true from rfl)]
      simp only [ha, hdeb]
    exact ⟨by simp [hsettle], by simp [hsettle]⟩

/-- C3 witness: the end-to-end scenario with wallet balance 100 and fee 450:
the close succeeds, the spot is freed, the session is closed, and the wallet
conjunct applies at the concrete account and balance. -/
theorem close_releases_spot_witness :
    ∃ res s',
      closeSession
        ⟨[⟨1, 150, [⟨"A-01", "regular", true, false, true⟩]⟩],
         [⟨"WP CA-1234", 1, "A-01", 0, none, none, none, none, SessionType.walk_in⟩],
         [], [], [(7, 100)], [("WP CA-1234", 7)], 180⟩
        "WP CA-1234" "wallet" = .ok (res, s') ∧
      res.gateAction = "open" ∧
      spotOccupied s'.facilities 1 "A-01" = false ∧
      (∃ c, c ∈ s'.sessions ∧ c.plate = "WP CA-1234" ∧ c.exitTime = some 180) ∧
      (∀ a b, "wallet" = "wallet" →
        lookupAcc [("WP CA-1234", 7)] "WP CA-1234" = some a →
        lookupBal [(7, 100)] a = some b → 0 ≤ b →
        b < (computeFee SessionType.walk_in (180 - 0)
              (facRate [⟨1, 150, [⟨"A-01", "regular", true, false, true⟩]⟩] 1) : Int) →
        res.payStatus = PayStatus.pending ∧ s'.wallets = [(7, 100)]) :=
  close_releases_spot
    ⟨[⟨1, 150, [⟨"A-01", "regular", true, false, true⟩]⟩],
     [⟨"WP CA-1234", 1, "A-01", 0, none, none, none, none, SessionType.walk_in⟩],
     [], [], [(7, 100)], [("WP CA-1234", 7)], 180⟩
    "WP CA-1234" "wallet"
    ⟨"WP CA-1234", 1, "A-01", 0, none, none, none, none, SessionType.walk_in⟩ rfl

/-- C7: closing a subscription session always yields fee 0 and payment
status waived, for any duration and any facility rate. -/
theorem subscription_waived (s : EngineState) (p m : String) (sess : Session)
    (h : findOpen s.sessions p = some sess)
    (hsub : sess.sType = SessionType.subscription) :
    ∃ res s', closeSession s p m = .ok (res, s') ∧
      res.fee = 0 ∧ res.payStatus = PayStatus.waived := by
  unfold closeSession
  simp only [h]
  refine ⟨_, _, rfl, ?_, ?_⟩
  · simp [hsub, computeFee]
  · simp [hsub, settle, computeFee]

/-- C7 witness: a subscription session of 600 minutes closes with fee 0 and
status waived. -/
theorem subscription_waived_witness :
    ∃ res s',
      closeSession
        ⟨[⟨1, 150, [⟨"A-01", "regular", true, false, true⟩]⟩],
         [⟨"SUB-1", 1, "A-01", 0, none, none, none, none, SessionType.subscription⟩],
         [], [], [], [], 600⟩ "SUB-1" "wallet" = .ok (res, s') ∧
      res.fee = 0 ∧ res.payStatus = PayStatus.waived :=
  subscription_waived
    ⟨[⟨1, 150, [⟨"A-01", "regular", true, false, true⟩]⟩],
     [⟨"SUB-1", 1, "A-01", 0, none, none, none, none, SessionType.subscription⟩],
     [], [], [], [], 600⟩ "SUB-1" "wallet"
    ⟨"SUB-1", 1, "A-01", 0, none, none, none, none, SessionType.subscription⟩ rfl rfl

/-- After unreserving a named spot, the spot found under that name no longer
holds a reservation. -/
theorem unreserveSpots_flag (sps : List Spot) (n : String) :
    ∀ sp, (unreserveSpots sps n).find? (fun x => x.name == n) = some sp →
      sp.reserved = false := by
  induction sps with
  | nil =>
    intro sp h
    simp [unreserveSpots] at h
  | cons a t ih =>
    intro sp h
    by_cases ha : a.name = n
    · simp only [unreserveSpots, List.map_cons] at h
      rw [if_pos (show (a.name == n) = true by simp [ha])] at h
      rw [List.find?_cons_of_pos _ (by simp [ha])] at h
      have he := Option.some.inj h
      rw [← he]
    · simp only [unreserveSpots, List.map_cons] at h
      rw [if_neg (show ¬ (a.name == n) = true by simp [ha])] at h
      rw [List.find?_cons_of_neg _ (by simp [ha])] at h
      exact ih sp h

/-- Unreserving a spot through the facility map clears its held flag. -/
theorem spotHeld_unreserve (fs : List Facility) (fid : Nat) (n : String) :
    spotHeld (mapFacility fs fid fun sps => unreserveSpots sps n) fid n = false := by
  unfold spotHeld getSpot
  rw [findFac_mapFacility]
  cases hf : findFac fs fid with
  | none => rfl
  | some f =>
    cases hfind : (unreserveSpots f.spots n).find? (fun sp => sp.name == n) with
    | none => simp [hfind]
    | some sp =>
      have hflag := unreserveSpots_flag f.spots n sp hfind
      simp [hfind, hflag]

/-- C9: cancelReservation succeeds exactly from pending or confirmed,
moving the reservation to cancelled and releasing the held spot; from any
other status it fails with invalidTransition; and the frontend Cancel
button guard of Reservations.jsx shows the button exactly for those two
statuses. -/
theorem cancel_transitions (s : EngineState) (i : Nat) (r : Reservation)
    (h : s.reservations.find? (fun q => q.rid == i) = some r) :
    ((r.status = ResStatus.pending ∨ r.status = ResStatus.confirmed) →
       ∃ s', cancelReservation s i = .ok s' ∧
         resStatusById s'.reservations i = some ResStatus.cancelled ∧
         spotHeld s'.facilities r.fid r.spotName = false) ∧
    (¬(r.status = ResStatus.pending ∨ r.status = ResStatus.confirmed) →
       cancelReservation s i = .error .invalidTransition) ∧
    (showCancelButton (statusKey r.status) = true ↔
       (r.status = ResStatus.pending ∨ r.status = ResStatus.confirmed)) := by
  have hrm : r ∈ s.reservations := List.mem_of_find?_eq_some h
  have hri : r.rid = i := by
    have hp := List.find?_some h
    simpa using hp
  refine ⟨?_, ?_, ?_⟩
  · intro hst
    unfold cancelReservation
    simp only [h]
    rw [if_pos hst]
    refine ⟨_, rfl, ?_, ?_⟩
    · exact resStatusById_set s.reservations i .cancelled r hrm hri
    · exact spotHeld_unreserve s.facilities r.fid r.spotName
  · intro hst
    unfold cancelReservation
    simp only [h]
    rw [if_neg hst]
  · cases hs : r.status <;> decide

/-- C9 witness: cancelling a confirmed reservation frees the held spot and
marks the reservation cancelled. -/
theorem cancel_transitions_witness :
    ∃ s', cancelReservation
        ⟨[⟨1, 150, [⟨"B-03", "regular", false, true, true⟩]⟩], [],
         [⟨9, "ABC-1", 1, "B-03", 540, 1020, ResStatus.confirmed⟩],
         [], [], [], 600⟩ 9 = .ok s' ∧
      resStatusById s'.reservations 9 = some ResStatus.cancelled ∧
      spotHeld s'.facilities 1 "B-03" = false :=
  (cancel_transitions
    ⟨[⟨1, 150, [⟨"B-03", "regular", false, true, true⟩]⟩], [],
     [⟨9, "ABC-1", 1, "B-03", 540, 1020, ResStatus.confirmed⟩],
     [], [], [], 600⟩ 9
    ⟨9, "ABC-1", 1, "B-03", 540, 1020, ResStatus.confirmed⟩ rfl).1 (Or.inr rfl)

/-- Mapping with the index over a list whose positions agree with lookups in
a reference list is mapping the lookup result over the elements. -/
theorem jsMapIdxFrom_get {α β : Type} (F : Option α → β) (L : List α) :
    ∀ (t : List α) (k : Nat), (∀ j, jsGet L (k + j) = jsGet t j) →
      jsMapIdxFrom (fun i _ => F (jsGet L i)) k t = t.map fun x => F (some x) := by
  intro t
  induction t with
  | nil =>
    intro k _
    rfl
  | cons a t ih =>
    intro k hL
    have h0 : jsGet L k = some a := by
      have hk := hL 0
      simpa [jsGet] using hk
    simp only [jsMapIdxFrom, List.map_cons]
    congr 1
    · rw [h0]
    · apply ih
      intro j
      have h1 := hL (j + 1)
      rw [show k + (j + 1) = k + 1 + j from by omega] at h1
      simpa [jsGet] using h1

/-- busyIndices is indexOf mapped over the occupied spots. -/
theorem busyIndices_eq_map (spots : List DSpot) :
    busyIndices spots =
      (spots.filter fun s => s.is_occupied).map fun x => jsIndexOf spots (some x) := by
  unfold busyIndices jsMapIdx
  apply jsMapIdxFrom_get (fun o => jsIndexOf spots o)
  intro j
  rw [Nat.zero_add]

/-- A present element has a non-negative JavaScript index. -/
theorem jsIndexOfFound_nonneg (t : List DSpot) (x : DSpot) (hx : x ∈ t) :
    0 ≤ jsIndexOfFound t x := by
  induction t with
  | nil => simp at hx
  | cons b t ih =>
    by_cases hb : b = x
    · simp [jsIndexOfFound, hb]
    · have hx' : x ∈ t := by
        rcases List.mem_cons.mp hx with heq | hmem
        · exact absurd heq.symm hb
        · exact hmem
      have h0 := ih hx'
      simp only [jsIndexOfFound]
      rw [if_neg hb, if_neg (by omega)]
      omega

/-- The JavaScript index past a distinct head shifts by one. -/
theorem jsIndexOfFound_cons_ne (b x : DSpot) (t : List DSpot) (hb : b ≠ x)
    (hx : x ∈ t) : jsIndexOfFound (b :: t) x = jsIndexOfFound t x + 1 := by
  have h0 := jsIndexOfFound_nonneg t x hx
  simp only [jsIndexOfFound]
  rw [if_neg hb, if_neg (by omega)]

/-- Occupied-index enumeration from a successor start is the shifted
enumeration. -/
theorem occIdxFrom_succ (t : List DSpot) :
    ∀ i, occIdxFrom t (i + 1) = (occIdxFrom t i).map fun z => z + 1 := by
  induction t with
  | nil =>
    intro i
    rfl
  | cons a t ih =>
    intro i
    cases ha : a.is_occupied with
    | true =>
      simp only [occIdxFrom]
      rw [if_pos ha, if_pos ha, ih (i + 1), List.map_cons]
      simp
    | false =>
      simp only [occIdxFrom]
      rw [if_neg (by simp [ha]), if_neg (by simp [ha])]
      exact ih (i + 1)

/-- On a duplicate-free list, mapping the JavaScript index over the occupied
spots enumerates exactly the ascending occupied positions. -/
theorem busy_map_eq_occIdx (l : List DSpot) (h : l.Nodup) :
    (l.filter fun s => s.is_occupied).map (fun x => jsIndexOfFound l x) =
      occIdxFrom l 0 := by
  induction l with
  | nil => rfl
  | cons a t ih =>
    have hna : a ∉ t := (List.nodup_cons.mp h).1
    have ht : t.Nodup := (List.nodup_cons.mp h).2
    have htail : (t.filter fun s => s.is_occupied).map
          (fun x => jsIndexOfFound (a :: t) x) =
        (t.filter fun s => s.is_occupied).map (fun x => jsIndexOfFound t x + 1) := by
      apply List.map_congr_left
      intro x hx
      have hxt : x ∈ t := List.mem_of_mem_filter hx
      have hax : a ≠ x := fun he => hna (he ▸ hxt)
      exact jsIndexOfFound_cons_ne a x t hax hxt
    have hcomp : (t.filter fun s => s.is_occupied).map (fun x => jsIndexOfFound t x + 1) =
        ((t.filter fun s => s.is_occupied).map fun x => jsIndexOfFound t x).map
          (fun z => z + 1) := by
      rw [List.map_map]
      rfl
    cases ha : a.is_occupied with
    | true =>
      rw [List.filter_cons_of_pos (by simp [ha]), List.map_cons, htail, hcomp,
        ih ht, ← occIdxFrom_succ t 0]
      simp only [occIdxFrom]
      rw [if_pos ha]
      congr 1
      simp [jsIndexOfFound]
    | false =>
      rw [List.filter_cons_of_neg (by simp [ha]), htail, hcomp, ih ht,
        ← occIdxFrom_succ t 0]
      simp only [occIdxFrom]
      rw [if_neg (by simp [ha])]

/-- C10: on a duplicate-free spots list, the busyIndices expression of
Dashboard.jsx (filter the occupied spots, then indexOf each back into the
full list) equals the straightforward enumerate-then-filter list of occupied
indices. -/
theorem busyIndices_equiv (spots : List DSpot) (h : spots.Nodup) :
    busyIndices spots = busyIndicesSpec spots := by
  rw [busyIndices_eq_map]
  unfold busyIndicesSpec
  exact busy_map_eq_occIdx spots h

/-- C10 witness: three distinct spots with the first and third occupied give
busy indices 0 and 2 under both definitions. -/
theorem busyIndices_equiv_witness :
    busyIndices [⟨1, "A-01", true⟩, ⟨2, "A-02", false⟩, ⟨3, "A-03", true⟩] =
      busyIndicesSpec [⟨1, "A-01", true⟩, ⟨2, "A-02", false⟩, ⟨3, "A-03", true⟩] ∧
    busyIndicesSpec [⟨1, "A-01", true⟩, ⟨2, "A-02", false⟩, ⟨3, "A-03", true⟩] =
      [0, 2] :=
  ⟨busyIndices_equiv _ (by decide), by decide⟩

end Sentra
